import Mathlib

/-!
Verification of the hybrid lexical/semantic retrieval fusion engine of this
repository against its design specification.

The embedding below translates `src/archieved_files/hybrid_search.py` and the
record-processing loops of `src/build_vector_db.py` into Lean.  Scores are
modelled as rationals (the Python code computes with floats; every claim here
is about the exact arithmetic structure of the normalization and fusion, not
about rounding).  The two external collaborators — the BM25 scorer
(`rank_bm25.BM25Okapi.get_scores`) and the vector store (`qdrant_client`,
`query_points` / `retrieve`) — are parameters of the embedding: the claims
quantify over their possible outputs.  A Python exception is modelled with
`Except`: code that calls a raising operation without a `try` block propagates
the error.
-/

deriving instance DecidableEq for Except

namespace LeRAG

/-- A document identifier.  `hybrid_search.py` lines 20–24 coerce the JSON id
to `int` when possible and keep it as `str` otherwise, so an id is an integer
or a string. -/
inductive DocId where
  | num (n : Int)
  | str (s : String)
deriving DecidableEq

/-- A Qdrant payload: an opaque string-keyed metadata mapping.  `{}` is the
empty list. -/
abbrev Meta := List (String × String)

/-- One `ScoredPoint` as returned by `client.query_points`: an id, a cosine
similarity score, and an optional payload (`point.payload` may be `None`). -/
structure Point where
  id : DocId
  score : ℚ
  payload : Option Meta
deriving DecidableEq

/-- The error raised by the dense backend (`qdrant_client`) at query time. -/
inductive DenseErr where
  | unavailable
deriving DecidableEq

/-- The read-only query-time environment of `hybrid_search`: the corpus id
list (`ids`), the BM25 score for every document position for the current
query (`bm25.get_scores(query_tokens)`), the outcome of
`client.query_points(...)` (`.error` models the call raising), and the point
lookup `client.retrieve(collection_name, ids=[pid])`. -/
structure QueryEnv where
  ids : List DocId
  bm25Scores : List ℚ
  queryPoints : Except DenseErr (List Point)
  retrieve : DocId → List Point

/-- `id_to_index = {doc_id: idx for idx, doc_id in enumerate(ids)}`
(line 40): dict-comprehension semantics, a repeated id keeps the last
index. -/
def id_to_index (ids : List DocId) (pid : DocId) : Option Nat :=
  match ids with
  | [] => none
  | d :: ds =>
    match id_to_index ds pid with
    | some j => some (j + 1)
    | none => if d = pid then some 0 else none

/-- `np.max` over a score vector: maximum of a nonempty list (0 on the empty
list, where the Python code would have raised while building the index). -/
def listMax : List ℚ → ℚ
  | [] => 0
  | x :: xs => xs.foldl max x

/-- `np.min` over a score vector. -/
def listMin : List ℚ → ℚ
  | [] => 0
  | x :: xs => xs.foldl min x

/-- `max_bm25 = bm25_scores.max() if bm25_scores.max() > 0 else 1.0`
(line 64). -/
def max_bm25 (scores : List ℚ) : ℚ :=
  if listMax scores > 0 then listMax scores else 1

/-- `min_bm25 = bm25_scores.min()` (line 65). -/
def min_bm25 (scores : List ℚ) : ℚ :=
  listMin scores

/-- Stable insertion of index `i` into a list of indices sorted ascending by
`key`: earlier (smaller) indices stay in front of equal keys. -/
def insIdxAsc (key : Nat → ℚ) (i : Nat) : List Nat → List Nat
  | [] => [i]
  | j :: l => if key j < key i then j :: insIdxAsc key i l else i :: j :: l

/-- Ascending argsort of `[0, …, n-1]` by `key`.  `np.argsort`'s order among
equal keys is unspecified; we fix the stable order (equal keys in index
order). -/
def argsortAsc (key : Nat → ℚ) : List Nat → List Nat
  | [] => []
  | i :: is' => insIdxAsc key i (argsortAsc key is')

/-- `bm25_top_idxs = np.argsort(bm25_scores)[::-1][:bm25_top_n]` with
`bm25_top_n = 20` (lines 61–62). -/
def bm25_top_idxs (scores : List ℚ) : List Nat :=
  ((argsortAsc (fun i => scores.getD i 0) (List.range scores.length)).reverse).take 20

/-- `bm25_top_ids = {ids[i] for i in bm25_top_idxs}` (line 63), as the list of
its elements; it is only ever used for membership in the candidate union. -/
def bm25_top_ids (ids : List DocId) (scores : List ℚ) : List DocId :=
  (bm25_top_idxs scores).map (fun i => ids.getD i (DocId.num 0))

/-- The accumulator of the loop over `search_result` (lines 76–89):
`vector_top_ids`, the `vector_scores` dict (front-cons assoc list, so lookup
returns the most recent write, as a dict does), and the running
`max_vec_score` / `min_vec_score`, both initialized to `0.0`. -/
structure DenseAcc where
  topIds : List DocId
  scores : List (DocId × ℚ)
  maxV : ℚ
  minV : ℚ
deriving DecidableEq

/-- One iteration of the loop over `search_result` (lines 80–89). -/
def denseStep (acc : DenseAcc) (p : Point) : DenseAcc :=
  { topIds := if p.id ∈ acc.topIds then acc.topIds else acc.topIds ++ [p.id]
    scores := (p.id, p.score) :: acc.scores
    maxV := if p.score > acc.maxV then p.score else acc.maxV
    minV := if p.score < acc.minV then p.score else acc.minV }

/-- The state after the whole loop over `search_result`. -/
def denseAcc (sr : List Point) : DenseAcc :=
  sr.foldl denseStep ⟨[], [], 0, 0⟩

/-- `vector_scores[pid]` as a partial lookup (`pid in vector_scores` is
`isSome`). -/
def vector_scores (sr : List Point) (pid : DocId) : Option ℚ :=
  ((denseAcc sr).scores.find? (fun e => e.1 = pid)).map (fun e => e.2)

/-- The normalized BM25 contribution of candidate `pid` (lines 97–100):
`bm25_score = 0.0`; if `id_to_index` knows the id, min-max normalize its raw
corpus score with the corpus-wide `min_bm25` / `max_bm25`, else `0.0` when
`max_bm25 <= min_bm25`. -/
def bm25_score (ids : List DocId) (scores : List ℚ) (pid : DocId) : ℚ :=
  match id_to_index ids pid with
  | none => 0
  | some idx =>
    if max_bm25 scores > min_bm25 scores then
      (scores.getD idx 0 - min_bm25 scores) / (max_bm25 scores - min_bm25 scores)
    else 0

/-- The normalized dense contribution of candidate `pid` (lines 101–107):
`0.0` when the id was not retrieved densely; otherwise min-max normalize with
the loop's `min_vec_score` / `max_vec_score`, and in the degenerate
`max == min` case use the raw score. -/
def vec_score (sr : List Point) (pid : DocId) : ℚ :=
  match vector_scores sr pid with
  | none => 0
  | some s =>
    if (denseAcc sr).maxV > (denseAcc sr).minV then
      (s - (denseAcc sr).minV) / ((denseAcc sr).maxV - (denseAcc sr).minV)
    else s

/-- Metadata resolution for one candidate (lines 111–126): prefer the payload
of the first point of `search_result` with this id (only reached when
`pid in vector_scores`), else fetch `client.retrieve(...)[0].payload`, and
return `meta or {}`. -/
def resolveMeta (sr : List Point) (retrieve : DocId → List Point) (pid : DocId) : Meta :=
  let meta0 : Option Meta :=
    if (vector_scores sr pid).isSome then
      (sr.find? (fun p => p.id = pid)).bind (fun p => p.payload)
    else none
  let meta1 : Option Meta :=
    match meta0 with
    | some m => some m
    | none => ((retrieve pid).head?).bind (fun p => p.payload)
  meta1.getD []

/-- One entry of the returned list: `(pid, hybrid_score, meta or {})`
(line 126). -/
structure SearchResult where
  id : DocId
  score : ℚ
  meta : Meta
deriving DecidableEq

/-- The body of the `for pid in candidate_ids` loop (lines 95–126) for one
candidate: `hybrid_score = alpha * bm25_score + (1 - alpha) * vec_score`. -/
def scoreCandidate (env : QueryEnv) (sr : List Point) (alpha : ℚ) (pid : DocId) : SearchResult :=
  { id := pid
    score := alpha * bm25_score env.ids env.bm25Scores pid + (1 - alpha) * vec_score sr pid
    meta := resolveMeta sr env.retrieve pid }

/-- Stable insertion for `results.sort(key=lambda x: x[1], reverse=True)`:
an element moves past a later element only when that element's score is
strictly greater, so equal scores keep their original order, as Python's
stable sort does. -/
def insDesc (x : SearchResult) : List SearchResult → List SearchResult
  | [] => [x]
  | y :: l => if x.score < y.score then y :: insDesc x l else x :: y :: l

/-- The stable descending-by-score sort of line 129. -/
def sortDesc : List SearchResult → List SearchResult
  | [] => []
  | x :: xs => insDesc x (sortDesc xs)

/-- Python list slicing `l[:k]` (line 130) for an arbitrary integer `k`:
`k >= 0` keeps the first `k` elements, a negative `k` drops the last `|k|`. -/
def pySlice {α : Type} (l : List α) (k : Int) : List α :=
  if 0 ≤ k then l.take k.toNat else l.take (l.length - (-k).toNat)

/-- `candidate_ids = bm25_top_ids | vector_top_ids` (line 92): the union of
the two id sets.  Python's `set` fixes no enumeration order (for string ids
it varies across processes with hash randomization); this is one canonical
enumeration, and order-sensitive claims quantify over enumerations via
`hybridSearchOrdered`. -/
def candidate_ids (env : QueryEnv) (sr : List Point) : List DocId :=
  (bm25_top_ids env.ids env.bm25Scores ++ (denseAcc sr).topIds).dedup

/-- `hybrid_search` (lines 48–130) with the enumeration order of the
candidate-id set made explicit.  The un-handled `client.query_points` call
propagates a backend error; otherwise every candidate in `order` is scored,
the list is stably sorted by descending hybrid score, and `results[:top_k]`
is returned. -/
def hybridSearchOrdered (env : QueryEnv) (order : List DocId) (top_k : Int) (alpha : ℚ) :
    Except DenseErr (List SearchResult) :=
  match env.queryPoints with
  | .error e => .error e
  | .ok sr => .ok (pySlice (sortDesc (order.map (scoreCandidate env sr alpha))) top_k)

/-- `hybrid_search(query, top_k, alpha)` at the canonical candidate
enumeration.  The query text itself only enters through `env.bm25Scores` and
`env.queryPoints`, which are its images under the two external rankers. -/
def hybrid_search (env : QueryEnv) (top_k : Int) (alpha : ℚ) :
    Except DenseErr (List SearchResult) :=
  match env.queryPoints with
  | .error e => .error e
  | .ok sr => .ok (pySlice (sortDesc ((candidate_ids env sr).map (scoreCandidate env sr alpha))) top_k)

/-- `string.punctuation`, the characters stripped by `simple_tokenize`. -/
def pythonPunctuation : List Char :=
  ['!', '\x22', '#', '$', '%', '&', '\x27', '(', ')', '*', '+', ',', '-', '.', '/',
   ':', ';', '<', '=', '>', '?', '@', '[', '\\', ']', '^', '_', '\x60', '\x7b', '|',
   '\x7d', '~']

/-- `simple_tokenize` (lines 30–33): lowercase, delete punctuation, split on
whitespace (`str.split()` drops empty fields). -/
def simple_tokenize (s : String) : List String :=
  ((String.mk ((s.toLower).toList.filter (fun c => c ∉ pythonPunctuation))).split
    (fun c => c.isWhitespace)).filter (fun t => t ≠ "")

/-- The module-level shared state read by a query: the corpus lists `docs`
and `ids` (lines 13–14) and the BM25 index, represented by its query
interface `bm25.get_scores : tokens → score per document position`
(`id_to_index` is derived from `ids` by `id_to_index` above). -/
structure ModuleState where
  docs : List String
  ids : List DocId
  bm25GetScores : List String → List ℚ

/-- One execution of `hybrid_search` with the shared module state threaded
explicitly.  The function body (lines 48–130) contains no assignment to
`docs`, `ids`, `id_to_index` or the BM25 object, so the state comes back
unchanged. -/
def hybridSearchRun (st : ModuleState) (clientQuery : Except DenseErr (List Point))
    (clientRetrieve : DocId → List Point) (query : String) (top_k : Int) (alpha : ℚ) :
    Except DenseErr (List SearchResult) × ModuleState :=
  (hybrid_search
      { ids := st.ids
        bm25Scores := st.bm25GetScores (simple_tokenize query)
        queryPoints := clientQuery
        retrieve := clientRetrieve }
      top_k alpha,
    st)

/-! ### Index-build time: the corpus load loops -/

/-- A JSON scalar in an id field: the ids in the chunk files are integers or
strings. -/
inductive PyVal where
  | num (n : Int)
  | str (s : String)
deriving DecidableEq

/-- Python truthiness of an id value: `0` and `""` are falsy. -/
def truthy : PyVal → Bool
  | .num n => n ≠ 0
  | .str s => s ≠ ""

/-- `a or b` on two optional id values (`obj.get` returns `None` for a
missing key). -/
def pyOrVal (a b : Option PyVal) : Option PyVal :=
  match a with
  | some v => if truthy v then some v else b
  | none => b

/-- `a or b` on two optional strings. -/
def pyOrStr (a b : Option String) : Option String :=
  match a with
  | some s => if s ≠ "" then some s else b
  | none => b

/-- The uncaught exception of the load loops: `int(None)` raises `TypeError`,
which the surrounding `except ValueError` does not catch. -/
inductive PyError where
  | typeError
deriving DecidableEq

/-- `doc_id = int(doc_id)` under `except ValueError: doc_id = str(doc_id)`
(`hybrid_search.py` lines 21–24, `build_vector_db.py` lines 46–50): `None`
raises `TypeError`; a numeric string becomes an `int`; any other string stays
a string.  (Python's `int` also strips whitespace and accepts a sign prefix —
irrelevant for the records considered here.) -/
def toDocId (v : Option PyVal) : Except PyError DocId :=
  match v with
  | none => .error .typeError
  | some (.num n) => .ok (.num n)
  | some (.str s) =>
    match s.toInt? with
    | some n => .ok (.num n)
    | none => .ok (.str s)

/-- One parsed JSONL record, after `json.loads`: the four fields the loaders
look at. -/
structure RawRecord where
  id : Option PyVal
  chunk_id : Option PyVal
  full_text : Option String
  text : Option String
deriving DecidableEq

/-- `doc_id = obj.get("id") or obj.get("chunk_id")` followed by the
`int`/`str` coercion. -/
def recordId (r : RawRecord) : Except PyError DocId :=
  toDocId (pyOrVal r.id r.chunk_id)

/-- `text = obj.get("full_text") or obj.get("text") or ""`
(`hybrid_search.py` line 25). -/
def recordTextHS (r : RawRecord) : String :=
  (pyOrStr r.full_text r.text).getD ""

/-- `text = obj.get("full_text") or obj.get("text")` (`build_vector_db.py`
line 53): no default, may be `None`. -/
def recordTextBV (r : RawRecord) : Option String :=
  pyOrStr r.full_text r.text

/-- The corpus load loop of `hybrid_search.py` (lines 15–27): every record
contributes `(text, doc_id)`; an id `TypeError` aborts the whole load. -/
def loadCorpus : List RawRecord → Except PyError (List String × List DocId)
  | [] => .ok ([], [])
  | r :: rs =>
    match recordId r with
    | .error e => .error e
    | .ok did =>
      match loadCorpus rs with
      | .error e => .error e
      | .ok (ds, dids) => .ok (recordTextHS r :: ds, did :: dids)

/-- The record loop of `build_vector_db.main` (lines 43–66), abstracted from
batching/embedding to the list of `(id, text)` pairs that get indexed: the id
is coerced before the text check, a record whose text is `None` is skipped
(`continue`, line 55) with no logging, and an id `TypeError` aborts the
build. -/
def buildPoints : List RawRecord → Except PyError (List (DocId × String))
  | [] => .ok []
  | r :: rs =>
    match recordId r with
    | .error e => .error e
    | .ok did =>
      match recordTextBV r with
      | none => buildPoints rs
      | some t =>
        match buildPoints rs with
        | .error e => .error e
        | .ok ps => .ok ((did, t) :: ps)

/-! ### Checked-division variants of the two normalizers

These repeat the normalizers with every division routed through `checkedDiv`,
which refuses a zero denominator; totality of these variants is exactly the
absence of division-by-zero (and of a 0/0 NaN) on the normalization path. -/

/-- Division that signals a zero denominator instead of Lean's `x / 0 = 0`
convention. -/
def checkedDiv (a b : ℚ) : Option ℚ :=
  if b = 0 then none else some (a / b)

/-- `bm25_score` with checked division. -/
def bm25_scoreChecked (ids : List DocId) (scores : List ℚ) (pid : DocId) : Option ℚ :=
  match id_to_index ids pid with
  | none => some 0
  | some idx =>
    if max_bm25 scores > min_bm25 scores then
      checkedDiv (scores.getD idx 0 - min_bm25 scores) (max_bm25 scores - min_bm25 scores)
    else some 0

/-- `vec_score` with checked division. -/
def vec_scoreChecked (sr : List Point) (pid : DocId) : Option ℚ :=
  match vector_scores sr pid with
  | none => some 0
  | some s =>
    if (denseAcc sr).maxV > (denseAcc sr).minV then
      checkedDiv (s - (denseAcc sr).minV) ((denseAcc sr).maxV - (denseAcc sr).minV)
    else some s

/-! ### Definitions taken from the specification's wording

These two follow the spec text, not the source; they exist to be compared
with the source-derived definitions above. -/

/-- Modelled from the spec: "Min-max normalization per side, computed only
over that side's retrieved candidates (not the full corpus):
`normalized = (raw - min) / (max - min)` if `max > min`, else `0.0`" — the
lexical side's min and max taken over the scores of the top-`M_lex` retrieved
documents only. -/
def bm25NormSpec (ids : List DocId) (scores : List ℚ) (pid : DocId) : ℚ :=
  let retrieved := (bm25_top_idxs scores).map (fun i => scores.getD i 0)
  let mx := listMax retrieved
  let mn := listMin retrieved
  match id_to_index ids pid with
  | none => 0
  | some idx => if mx > mn then (scores.getD idx 0 - mn) / (mx - mn) else 0

/-- Modelled from the spec: the pure lexical top-k — "falling back to
lexical-only scoring (`alpha` effectively forced to 1.0)", i.e. the lexical
candidates ranked by their normalized lexical score alone, with no dense
contribution. -/
def lexicalTopK (env : QueryEnv) (top_k : Int) : List SearchResult :=
  pySlice
    (sortDesc ((bm25_top_ids env.ids env.bm25Scores).dedup.map (fun pid =>
      { id := pid
        score := bm25_score env.ids env.bm25Scores pid
        meta := resolveMeta [] env.retrieve pid })))
    top_k

/-- Modelled from the spec: metadata resolution — "prefer metadata already
attached from the dense retrieval payload; if absent, perform a point lookup
against the external VectorIndex by id; a candidate whose metadata cannot be
resolved at all is still returned with an empty metadata mapping". -/
def specResolveMeta (sr : List Point) (retrieve : DocId → List Point) (pid : DocId) : Meta :=
  match (sr.find? (fun p => p.id = pid)).bind (fun p => p.payload) with
  | some m => m
  | none =>
    match ((retrieve pid).head?).bind (fun p => p.payload) with
    | some m => m
    | none => []

/-! ### Concrete instances used to separate the source behaviour from the
spec's wording

`bm25_top_n` is hardcoded to 20 in the source, so a corpus of 22 documents
(ids `num 0` … `num 21`, BM25 score of document `i` equal to `i`) leaves the
two lowest-scored documents outside the lexical candidate set. -/

/-- Corpus ids `num 0` … `num 21`. -/
def ids22 : List DocId :=
  [DocId.num 0, DocId.num 1, DocId.num 2, DocId.num 3, DocId.num 4, DocId.num 5,
   DocId.num 6, DocId.num 7, DocId.num 8, DocId.num 9, DocId.num 10, DocId.num 11,
   DocId.num 12, DocId.num 13, DocId.num 14, DocId.num 15, DocId.num 16, DocId.num 17,
   DocId.num 18, DocId.num 19, DocId.num 20, DocId.num 21]

/-- BM25 score `i` for document `i`. -/
def scores22 : List ℚ :=
  [0, 1, 2, 3, 4, 5, 6, 7, 8, 9, 10, 11, 12, 13, 14, 15, 16, 17, 18, 19, 20, 21]

/-- A dense result containing only document `num 1`, which is outside the
BM25 top-20 of `scores22`. -/
def sr22 : List Point := [⟨DocId.num 1, 1 / 2, none⟩]

/-- The 22-document query environment. -/
def env22 : QueryEnv := ⟨ids22, scores22, .ok sr22, fun _ => []⟩

/-- Two documents with tied BM25 scores and an empty dense result: every
candidate's hybrid score is 0, so the output order is exactly the candidate
enumeration order. -/
def env3 : QueryEnv := ⟨[DocId.num 0, DocId.num 1], [5, 5], .ok [], fun _ => []⟩

/-- An environment whose dense backend raises at query time. -/
def env5 : QueryEnv := ⟨[DocId.num 0], [3], .error .unavailable, fun _ => []⟩

/-- A two-document environment with distinct BM25 scores, used for the
parameter-validation claim. -/
def env6 : QueryEnv := ⟨[DocId.num 0, DocId.num 1], [1, 2], .ok [], fun _ => []⟩

/-- Another tied-score environment (ids `num 5`, `num 7`). -/
def env9 : QueryEnv := ⟨[DocId.num 5, DocId.num 7], [2, 2], .ok [], fun _ => []⟩

/-- A one-document degenerate environment (all BM25 scores equal, no dense
results). -/
def envW4 : QueryEnv := ⟨[DocId.num 0], [5], .ok [], fun _ => []⟩

/-- A dense result whose single point carries a payload and score 0. -/
def srW8 : List Point := [⟨DocId.num 0, 0, some [("k", "v")]⟩]

/-- A one-document environment whose dense result is `srW8`. -/
def envW8 : QueryEnv := ⟨[DocId.num 0], [5], .ok srW8, fun _ => []⟩

/-- A well-formed record: integer id 7, nonempty `full_text`. -/
def gRec : RawRecord := ⟨some (.num 7), none, some "brake fails", none⟩

/-- A malformed record: both id fields missing, text present. -/
def bRec : RawRecord := ⟨none, none, some "some text", none⟩

/-- A record with a valid id but no text at all. -/
def tRec : RawRecord := ⟨some (.num 9), none, none, none⟩

/-! ### Helper lemmas about the embedded operations -/

theorem foldl_max_init_le : ∀ (xs : List ℚ) (a : ℚ), a ≤ xs.foldl max a
  | [], a => le_refl a
  | y :: ys, a => le_trans (le_max_left a y) (foldl_max_init_le ys (max a y))

theorem le_foldl_max : ∀ (xs : List ℚ) (a x : ℚ), x ∈ xs → x ≤ xs.foldl max a
  | [], _, x, h => absurd h (List.not_mem_nil x)
  | y :: ys, a, x, h => by
    rcases List.mem_cons.mp h with h1 | h2
    · subst h1
      exact le_trans (le_max_right a x) (foldl_max_init_le ys (max a x))
    · exact le_foldl_max ys (max a y) x h2

theorem foldl_min_init_le : ∀ (xs : List ℚ) (a : ℚ), xs.foldl min a ≤ a
  | [], a => le_refl a
  | y :: ys, a => le_trans (foldl_min_init_le ys (min a y)) (min_le_left a y)

theorem foldl_min_le : ∀ (xs : List ℚ) (a x : ℚ), x ∈ xs → xs.foldl min a ≤ x
  | [], _, x, h => absurd h (List.not_mem_nil x)
  | y :: ys, a, x, h => by
    rcases List.mem_cons.mp h with h1 | h2
    · subst h1
      exact le_trans (foldl_min_init_le ys (min a x)) (min_le_right a x)
    · exact foldl_min_le ys (min a y) x h2

theorem le_listMax (l : List ℚ) (x : ℚ) (h : x ∈ l) : x ≤ listMax l := by
  match l with
  | [] => exact absurd h (List.not_mem_nil x)
  | y :: ys =>
    rcases List.mem_cons.mp h with h1 | h2
    · subst h1; exact foldl_max_init_le ys x
    · exact le_foldl_max ys y x h2

theorem listMin_le (l : List ℚ) (x : ℚ) (h : x ∈ l) : listMin l ≤ x := by
  match l with
  | [] => exact absurd h (List.not_mem_nil x)
  | y :: ys =>
    rcases List.mem_cons.mp h with h1 | h2
    · subst h1; exact foldl_min_init_le ys x
    · exact foldl_min_le ys y x h2

theorem foldl_max_mem : ∀ (xs : List ℚ) (a : ℚ), xs.foldl max a = a ∨ xs.foldl max a ∈ xs
  | [], _ => Or.inl rfl
  | y :: ys, a => by
    rcases foldl_max_mem ys (max a y) with h1 | h2
    · rcases max_choice a y with hc | hc
      · exact Or.inl (by rw [List.foldl_cons, h1, hc])
      · refine Or.inr ?_
        rw [List.foldl_cons, h1, hc]
        exact List.mem_cons_self y ys
    · exact Or.inr (List.mem_cons_of_mem y h2)

theorem foldl_min_mem : ∀ (xs : List ℚ) (a : ℚ), xs.foldl min a = a ∨ xs.foldl min a ∈ xs
  | [], _ => Or.inl rfl
  | y :: ys, a => by
    rcases foldl_min_mem ys (min a y) with h1 | h2
    · rcases min_choice a y with hc | hc
      · exact Or.inl (by rw [List.foldl_cons, h1, hc])
      · refine Or.inr ?_
        rw [List.foldl_cons, h1, hc]
        exact List.mem_cons_self y ys
    · exact Or.inr (List.mem_cons_of_mem y h2)

theorem listMax_eq_of_all_eq (l : List ℚ) (c : ℚ) (hne : l ≠ []) (h : ∀ s ∈ l, s = c) :
    listMax l = c := by
  match l with
  | [] => exact absurd rfl hne
  | y :: ys =>
    rcases foldl_max_mem ys y with h1 | h2
    · rw [listMax, h1]; exact h y (List.mem_cons_self y ys)
    · rw [listMax]; exact h _ (List.mem_cons_of_mem y h2)

theorem listMin_eq_of_all_eq (l : List ℚ) (c : ℚ) (hne : l ≠ []) (h : ∀ s ∈ l, s = c) :
    listMin l = c := by
  match l with
  | [] => exact absurd rfl hne
  | y :: ys =>
    rcases foldl_min_mem ys y with h1 | h2
    · rw [listMin, h1]; exact h y (List.mem_cons_self y ys)
    · rw [listMin]; exact h _ (List.mem_cons_of_mem y h2)

theorem id_to_index_lt_length (ids : List DocId) (pid : DocId) :
    ∀ i, id_to_index ids pid = some i → i < ids.length := by
  induction ids with
  | nil => intro i h; simp [id_to_index] at h
  | cons d ds ih =>
    intro i h
    rw [id_to_index] at h
    cases hrec : id_to_index ds pid with
    | some j =>
      rw [hrec] at h
      injection h with h
      subst h
      exact Nat.succ_lt_succ (ih j hrec)
    | none =>
      rw [hrec] at h
      by_cases hd : d = pid
      · rw [if_pos hd] at h
        injection h with h
        subst h
        exact Nat.succ_pos _
      · rw [if_neg hd] at h
        cases h

theorem denseFold_maxV_le (sr : List Point) :
    ∀ acc : DenseAcc, acc.maxV ≤ (sr.foldl denseStep acc).maxV := by
  induction sr with
  | nil => intro acc; exact le_refl _
  | cons p ps ih =>
    intro acc
    refine le_trans ?_ (ih (denseStep acc p))
    simp only [denseStep]
    split
    · next h => exact le_of_lt h
    · exact le_refl _

theorem le_denseFold_maxV (sr : List Point) :
    ∀ (acc : DenseAcc) (p : Point), p ∈ sr → p.score ≤ (sr.foldl denseStep acc).maxV := by
  induction sr with
  | nil => intro acc p h; exact absurd h (List.not_mem_nil p)
  | cons q qs ih =>
    intro acc p h
    rcases List.mem_cons.mp h with h1 | h2
    · subst h1
      refine le_trans ?_ (denseFold_maxV_le qs (denseStep acc p))
      simp only [denseStep]
      split
      · exact le_refl _
      · next h => exact le_of_not_lt h
    · exact ih (denseStep acc q) p h2

theorem denseFold_minV_le (sr : List Point) :
    ∀ acc : DenseAcc, (sr.foldl denseStep acc).minV ≤ acc.minV := by
  induction sr with
  | nil => intro acc; exact le_refl _
  | cons p ps ih =>
    intro acc
    refine le_trans (ih (denseStep acc p)) ?_
    simp only [denseStep]
    split
    · next h => exact le_of_lt h
    · exact le_refl _

theorem denseFold_minV_le_mem (sr : List Point) :
    ∀ (acc : DenseAcc) (p : Point), p ∈ sr → (sr.foldl denseStep acc).minV ≤ p.score := by
  induction sr with
  | nil => intro acc p h; exact absurd h (List.not_mem_nil p)
  | cons q qs ih =>
    intro acc p h
    rcases List.mem_cons.mp h with h1 | h2
    · subst h1
      refine le_trans (denseFold_minV_le qs (denseStep acc p)) ?_
      simp only [denseStep]
      split
      · exact le_refl _
      · next h => exact le_of_not_lt h
    · exact ih (denseStep acc q) p h2

theorem denseFold_scores_sub (sr : List Point) :
    ∀ (acc : DenseAcc) (e : DocId × ℚ), e ∈ (sr.foldl denseStep acc).scores →
      e ∈ acc.scores ∨ ∃ p, p ∈ sr ∧ e = (p.id, p.score) := by
  induction sr with
  | nil => intro acc e h; exact Or.inl h
  | cons q qs ih =>
    intro acc e h
    rcases ih (denseStep acc q) e h with h1 | h2
    · simp only [denseStep] at h1
      rcases List.mem_cons.mp h1 with h3 | h4
      · exact Or.inr ⟨q, List.mem_cons_self q qs, h3⟩
      · exact Or.inl h4
    · rcases h2 with ⟨p, hp, he⟩
      exact Or.inr ⟨p, List.mem_cons_of_mem q hp, he⟩

theorem denseFold_scores_mono (sr : List Point) :
    ∀ (acc : DenseAcc) (e : DocId × ℚ), e ∈ acc.scores → e ∈ (sr.foldl denseStep acc).scores := by
  induction sr with
  | nil => intro acc e h; exact h
  | cons q qs ih =>
    intro acc e h
    refine ih (denseStep acc q) e ?_
    simp only [denseStep]
    exact List.mem_cons_of_mem _ h

theorem mem_denseFold_scores (sr : List Point) :
    ∀ (acc : DenseAcc) (p : Point), p ∈ sr → (p.id, p.score) ∈ (sr.foldl denseStep acc).scores := by
  induction sr with
  | nil => intro acc p h; exact absurd h (List.not_mem_nil p)
  | cons q qs ih =>
    intro acc p h
    rcases List.mem_cons.mp h with h1 | h2
    · subst h1
      refine denseFold_scores_mono qs (denseStep acc p) _ ?_
      simp only [denseStep]
      exact List.mem_cons_self _ _
    · exact ih (denseStep acc q) p h2

theorem vector_scores_spec (sr : List Point) (pid : DocId) (s : ℚ)
    (h : vector_scores sr pid = some s) : ∃ p, p ∈ sr ∧ p.id = pid ∧ p.score = s := by
  unfold vector_scores at h
  cases hf : (denseAcc sr).scores.find? (fun e => e.1 = pid) with
  | none => rw [hf] at h; cases h
  | some e =>
    rw [hf] at h
    injection h with h
    have hmem := List.mem_of_find?_eq_some hf
    have hpred := List.find?_some hf
    rcases denseFold_scores_sub sr ⟨[], [], 0, 0⟩ e hmem with h1 | h2
    · exact absurd h1 (List.not_mem_nil e)
    · rcases h2 with ⟨p, hp, he⟩
      refine ⟨p, hp, ?_, ?_⟩
      · have : e.1 = pid := by simpa using hpred
        rw [he] at this
        exact this
      · rw [← h, he]

theorem vector_scores_isSome_of_mem (sr : List Point) (p : Point) (h : p ∈ sr) :
    (vector_scores sr p.id).isSome = true := by
  unfold vector_scores
  cases hf : (denseAcc sr).scores.find? (fun e => e.1 = p.id) with
  | none =>
    exfalso
    have hall := List.find?_eq_none.mp hf (p.id, p.score)
      (mem_denseFold_scores sr ⟨[], [], 0, 0⟩ p h)
    simp at hall
  | some e => rfl

theorem vec_score_bounds (sr : List Point) (pid : DocId) :
    0 ≤ vec_score sr pid ∧ vec_score sr pid ≤ 1 := by
  unfold vec_score
  cases hv : vector_scores sr pid with
  | none => dsimp only; norm_num
  | some s =>
    dsimp only
    rcases vector_scores_spec sr pid s hv with ⟨p, hp, _, hsc⟩
    have hmax : s ≤ (denseAcc sr).maxV := hsc ▸ le_denseFold_maxV sr ⟨[], [], 0, 0⟩ p hp
    have hmin : (denseAcc sr).minV ≤ s := hsc ▸ denseFold_minV_le_mem sr ⟨[], [], 0, 0⟩ p hp
    have hmax0 : (0 : ℚ) ≤ (denseAcc sr).maxV := denseFold_maxV_le sr ⟨[], [], 0, 0⟩
    have hmin0 : (denseAcc sr).minV ≤ (0 : ℚ) := denseFold_minV_le sr ⟨[], [], 0, 0⟩
    by_cases hgt : (denseAcc sr).maxV > (denseAcc sr).minV
    · rw [if_pos hgt]
      constructor
      · exact div_nonneg (by linarith) (by linarith)
      · rw [div_le_one (by linarith)]
        linarith
    · rw [if_neg hgt]
      have hle : (denseAcc sr).maxV ≤ (denseAcc sr).minV := le_of_not_lt hgt
      constructor <;> linarith

theorem bm25_score_bounds (ids : List DocId) (scores : List ℚ) (pid : DocId)
    (hlen : ids.length = scores.length) :
    0 ≤ bm25_score ids scores pid ∧ bm25_score ids scores pid ≤ 1 := by
  unfold bm25_score
  cases hix : id_to_index ids pid with
  | none => dsimp only; norm_num
  | some idx =>
    dsimp only
    have hlt : idx < scores.length := hlen ▸ id_to_index_lt_length ids pid idx hix
    have hmem : scores.getD idx 0 ∈ scores := by
      rw [List.getD_eq_getElem scores 0 hlt]
      exact List.getElem_mem hlt
    have h1 : scores.getD idx 0 ≤ listMax scores := le_listMax scores _ hmem
    have h2 : listMin scores ≤ scores.getD idx 0 := listMin_le scores _ hmem
    have hminb : min_bm25 scores = listMin scores := rfl
    by_cases hgt : max_bm25 scores > min_bm25 scores
    · rw [if_pos hgt]
      have hle : scores.getD idx 0 ≤ max_bm25 scores := by
        unfold max_bm25
        split
        · exact h1
        · next hnp => push_neg at hnp; linarith
      constructor
      · refine div_nonneg ?_ ?_ <;> rw [hminb] <;> linarith
      · rw [div_le_one (by linarith)]
        linarith
    · rw [if_neg hgt]
      norm_num

theorem insDesc_perm (x : SearchResult) : ∀ l, (insDesc x l).Perm (x :: l)
  | [] => List.Perm.refl _
  | y :: l => by
    rw [insDesc]
    split
    · exact ((insDesc_perm x l).cons y).trans (List.Perm.swap x y l)
    · exact List.Perm.refl _

theorem sortDesc_perm : ∀ l, (sortDesc l).Perm l
  | [] => List.Perm.refl _
  | x :: xs => (insDesc_perm x (sortDesc xs)).trans ((sortDesc_perm xs).cons x)

theorem insDesc_pairwise (x : SearchResult) :
    ∀ l, List.Pairwise (fun a b => b.score ≤ a.score) l →
      List.Pairwise (fun a b => b.score ≤ a.score) (insDesc x l)
  | [], _ => List.pairwise_singleton _ x
  | y :: l, h => by
    rw [insDesc]
    rcases List.pairwise_cons.mp h with ⟨hy, hl⟩
    split
    · next hlt =>
      refine List.pairwise_cons.mpr ⟨?_, insDesc_pairwise x l hl⟩
      intro z hz
      rcases List.mem_cons.mp ((insDesc_perm x l).mem_iff.mp hz) with h1 | h2
      · subst h1; exact le_of_lt hlt
      · exact hy z h2
    · next hge =>
      have hxy : y.score ≤ x.score := le_of_not_lt hge
      refine List.pairwise_cons.mpr ⟨?_, h⟩
      intro z hz
      rcases List.mem_cons.mp hz with h1 | h2
      · subst h1; exact hxy
      · exact le_trans (hy z h2) hxy

theorem sortDesc_pairwise : ∀ l, List.Pairwise (fun a b => b.score ≤ a.score) (sortDesc l)
  | [] => List.Pairwise.nil
  | x :: xs => insDesc_pairwise x (sortDesc xs) (sortDesc_pairwise xs)

theorem insDesc_filter (x : SearchResult) (s : ℚ) :
    ∀ l, (insDesc x l).filter (fun r => decide (r.score = s)) =
      (x :: l).filter (fun r => decide (r.score = s))
  | [] => rfl
  | y :: l => by
    rw [insDesc]
    split
    · next hlt =>
      have ihl := insDesc_filter x s l
      by_cases hx : x.score = s
      · have hy : ¬ y.score = s := by rw [← hx]; exact ne_of_gt hlt
        simp only [List.filter_cons, ihl]
        simp [hx, hy]
      · by_cases hy : y.score = s
        · simp only [List.filter_cons, ihl]
          simp [hx, hy]
        · simp only [List.filter_cons, ihl]
          simp [hx, hy]
    · rfl

theorem sortDesc_filter (s : ℚ) :
    ∀ l, (sortDesc l).filter (fun r => decide (r.score = s)) =
      l.filter (fun r => decide (r.score = s))
  | [] => rfl
  | x :: xs => by
    rw [sortDesc, insDesc_filter x s (sortDesc xs)]
    simp only [List.filter_cons, sortDesc_filter s xs]

theorem mem_pySlice {α : Type} (l : List α) (k : Int) (x : α) (h : x ∈ pySlice l k) : x ∈ l := by
  unfold pySlice at h
  split at h <;> exact List.take_subset _ _ h

theorem pySlice_zero {α : Type} (l : List α) : pySlice l 0 = [] := by
  simp [pySlice]

theorem hybrid_search_ok (env : QueryEnv) (sr : List Point) (tk : Int) (alpha : ℚ)
    (h : env.queryPoints = .ok sr) :
    hybrid_search env tk alpha =
      .ok (pySlice (sortDesc ((candidate_ids env sr).map (scoreCandidate env sr alpha))) tk) := by
  unfold hybrid_search
  rw [h]

theorem hybridSearchOrdered_ok (env : QueryEnv) (sr : List Point) (order : List DocId)
    (tk : Int) (alpha : ℚ) (h : env.queryPoints = .ok sr) :
    hybridSearchOrdered env order tk alpha =
      .ok (pySlice (sortDesc (order.map (scoreCandidate env sr alpha))) tk) := by
  unfold hybridSearchOrdered
  rw [h]

theorem mem_hybrid_results (env : QueryEnv) (sr : List Point) (tk : Int) (alpha : ℚ)
    (res : List SearchResult) (r : SearchResult) (h : env.queryPoints = .ok sr)
    (hres : hybrid_search env tk alpha = .ok res) (hr : r ∈ res) :
    ∃ pid, pid ∈ candidate_ids env sr ∧ r = scoreCandidate env sr alpha pid := by
  rw [hybrid_search_ok env sr tk alpha h] at hres
  injection hres with hres
  subst hres
  have h1 := mem_pySlice _ _ _ hr
  have h2 := (sortDesc_perm _).mem_iff.mp h1
  rcases List.mem_map.mp h2 with ⟨pid, hpid, hmap⟩
  exact ⟨pid, hpid, hmap.symm⟩

theorem scoreCandidate_score_zero (env : QueryEnv) (sr : List Point) (alpha : ℚ) (pid : DocId)
    (h1 : bm25_score env.ids env.bm25Scores pid = 0) (h2 : vec_score sr pid = 0) :
    scoreCandidate env sr alpha pid = ⟨pid, 0, resolveMeta sr env.retrieve pid⟩ := by
  unfold scoreCandidate
  rw [h1, h2]
  simp

theorem bm25_score_degenerate (ids : List DocId) (scores : List ℚ) (pid : DocId)
    (h : ¬ max_bm25 scores > min_bm25 scores) : bm25_score ids scores pid = 0 := by
  unfold bm25_score
  cases id_to_index ids pid with
  | none => rfl
  | some idx => dsimp only; rw [if_neg h]

theorem vector_scores_isSome_iff (sr : List Point) (pid : DocId) :
    (vector_scores sr pid).isSome = (sr.find? (fun p => p.id = pid)).isSome := by
  cases hv : vector_scores sr pid with
  | some s =>
    rcases vector_scores_spec sr pid s hv with ⟨p, hp, hid, _⟩
    have hsome : (sr.find? (fun p => p.id = pid)).isSome = true := by
      rw [List.find?_isSome]
      exact ⟨p, hp, by simp [hid]⟩
    rw [hsome]
    rfl
  | none =>
    cases hf : sr.find? (fun p => p.id = pid) with
    | none => rfl
    | some p =>
      exfalso
      have hp := List.mem_of_find?_eq_some hf
      have hid : p.id = pid := by simpa using List.find?_some hf
      have hs := vector_scores_isSome_of_mem sr p hp
      rw [hid, hv] at hs
      simp at hs

theorem resolveMeta_eq_spec (sr : List Point) (retrieve : DocId → List Point) (pid : DocId) :
    resolveMeta sr retrieve pid = specResolveMeta sr retrieve pid := by
  unfold resolveMeta specResolveMeta
  rw [vector_scores_isSome_iff sr pid]
  cases hf : sr.find? (fun p => p.id = pid) with
  | none =>
    cases hq : ((retrieve pid).head?).bind (fun q => q.payload) with
    | none => simp [hq]
    | some m => simp [hq]
  | some p =>
    cases hp : p.payload with
    | some m => simp [hp]
    | none =>
      cases hq : ((retrieve pid).head?).bind (fun q => q.payload) with
      | none => simp [hp, hq]
      | some m => simp [hp, hq]

/-! ### The claims -/

set_option maxRecDepth 20000 in
/-- C1, counterexample.  The claim says a candidate retrieved by only the
dense ranker contributes 0.0 on the lexical side.  In `env22`, document
`num 1` is retrieved densely, is outside the BM25 top-20, and still receives
the nonzero lexical contribution `(1 - 0) / (21 - 0)`, because lines 97–100
normalize `bm25_scores[id_to_index[pid]]` for every candidate the corpus
knows, regardless of membership in `bm25_top_ids`. -/
theorem claim1_counterexample :
    DocId.num 1 ∈ candidate_ids env22 sr22 ∧
    (vector_scores sr22 (DocId.num 1)).isSome = true ∧
    DocId.num 1 ∉ bm25_top_ids ids22 scores22 ∧
    bm25_score ids22 scores22 (DocId.num 1) ≠ 0 := by
  refine ⟨by decide, by decide, by decide, ?_⟩
  have hix : id_to_index ids22 (DocId.num 1) = some 1 := by decide
  have hgt : max_bm25 scores22 > min_bm25 scores22 := by decide
  have hmax : max_bm25 scores22 = 21 := by decide
  have hmin : min_bm25 scores22 = 0 := by decide
  have hgd : scores22.getD 1 0 = 1 := by decide
  unfold bm25_score
  rw [hix]
  dsimp only
  rw [if_pos hgt, hmax, hmin, hgd]
  norm_num

/-- C1, amended.  A candidate retrieved by only the lexical side does get a
dense contribution of 0.0; but the lexical contribution of a dense-only
candidate is its corpus-normalized BM25 score, which is 0.0 only when its id
is absent from the corpus `id_to_index` mapping (or its raw score equals the
corpus minimum). -/
theorem claim1_amended (ids : List DocId) (scores : List ℚ) (sr : List Point) (pid : DocId)
    (h : vector_scores sr pid = none) :
    vec_score sr pid = 0 ∧
    (id_to_index ids pid = none → bm25_score ids scores pid = 0) := by
  constructor
  · unfold vec_score
    rw [h]
  · intro h2
    unfold bm25_score
    rw [h2]

/-- Witness for the amended C1 at a concrete lexical-only candidate. -/
theorem claim1_amended_witness :
    vector_scores [] (DocId.str "x") = none ∧
    (vec_score [] (DocId.str "x") = 0 ∧
      (id_to_index [DocId.num 0] (DocId.str "x") = none →
        bm25_score [DocId.num 0] [5] (DocId.str "x") = 0)) :=
  ⟨by decide, claim1_amended [DocId.num 0] [5] [] (DocId.str "x") (by decide)⟩

set_option maxRecDepth 20000 in
/-- C2, counterexample.  The claim says min-max normalization is computed
only over the retrieved candidates.  In `env22` the retrieved lexical
candidates have scores 2…21, so the claimed normalization of document
`num 10` is `(10 - 2) / (21 - 2)`, but the code normalizes with the
full-corpus minimum and maximum (lines 59, 64–65), yielding
`(10 - 0) / (21 - 0)`. -/
theorem claim2_counterexample :
    DocId.num 10 ∈ bm25_top_ids ids22 scores22 ∧
    bm25_score ids22 scores22 (DocId.num 10) ≠ bm25NormSpec ids22 scores22 (DocId.num 10) := by
  refine ⟨by decide, ?_⟩
  have hix : id_to_index ids22 (DocId.num 10) = some 10 := by decide
  have hgt : max_bm25 scores22 > min_bm25 scores22 := by decide
  have hmax : max_bm25 scores22 = 21 := by decide
  have hmin : min_bm25 scores22 = 0 := by decide
  have hgd : scores22.getD 10 0 = 10 := by decide
  have hmx : listMax ((bm25_top_idxs scores22).map (fun i => scores22.getD i 0)) = 21 := by decide
  have hmn : listMin ((bm25_top_idxs scores22).map (fun i => scores22.getD i 0)) = 2 := by decide
  unfold bm25_score bm25NormSpec
  rw [hix]
  dsimp only
  rw [if_pos hgt, hmax, hmin, hgd, hmx, hmn]
  norm_num

/-- C2, amended.  Lexical min-max normalization uses the minimum and maximum
over the full corpus's BM25 scores, with the maximum replaced by 1.0 when the
corpus maximum is not positive; the dense side's minimum and maximum range
over the retrieved dense scores together with an initial 0.0.  The degenerate
all-identical cases do yield 0.0 on both sides (the dense degenerate branch
returns the raw score, which is necessarily 0.0 when it is reached). -/
theorem claim2_amended (ids : List DocId) (scores : List ℚ) (sr : List Point) (pid : DocId)
    (c : ℚ) (hlen : ids.length = scores.length) (hall : ∀ s ∈ scores, s = c) :
    bm25_score ids scores pid = 0 ∧
    ((denseAcc sr).maxV = (denseAcc sr).minV → vec_score sr pid = 0) := by
  constructor
  · unfold bm25_score
    cases hix : id_to_index ids pid with
    | none => rfl
    | some idx =>
      dsimp only
      have hlt : idx < scores.length := hlen ▸ id_to_index_lt_length ids pid idx hix
      have hne : scores ≠ [] := by
        intro h0
        rw [h0] at hlt
        exact absurd hlt (by simp)
      have hmem : scores.getD idx 0 ∈ scores := by
        rw [List.getD_eq_getElem scores 0 hlt]
        exact List.getElem_mem hlt
      have hval : scores.getD idx 0 = c := hall _ hmem
      have hmaxl : listMax scores = c := listMax_eq_of_all_eq scores c hne hall
      have hminb : min_bm25 scores = c := listMin_eq_of_all_eq scores c hne hall
      by_cases hc : c > 0
      · have hmaxb : max_bm25 scores = c := by
          unfold max_bm25
          rw [hmaxl, if_pos hc]
        rw [if_neg (by rw [hmaxb, hminb]; exact lt_irrefl c)]
      · have hmaxb : max_bm25 scores = 1 := by
          unfold max_bm25
          rw [hmaxl, if_neg hc]
        have hgt : max_bm25 scores > min_bm25 scores := by
          rw [hmaxb, hminb]
          push_neg at hc
          linarith
        rw [if_pos hgt, hval, hminb]
        simp
  · intro hdeg
    unfold vec_score
    cases hv : vector_scores sr pid with
    | none => rfl
    | some s =>
      dsimp only
      rcases vector_scores_spec sr pid s hv with ⟨p, hp, _, hsc⟩
      have hmax : s ≤ (denseAcc sr).maxV := hsc ▸ le_denseFold_maxV sr ⟨[], [], 0, 0⟩ p hp
      have hmin : (denseAcc sr).minV ≤ s := hsc ▸ denseFold_minV_le_mem sr ⟨[], [], 0, 0⟩ p hp
      have hmax0 : (0 : ℚ) ≤ (denseAcc sr).maxV := denseFold_maxV_le sr ⟨[], [], 0, 0⟩
      have hmin0 : (denseAcc sr).minV ≤ (0 : ℚ) := denseFold_minV_le sr ⟨[], [], 0, 0⟩
      rw [if_neg (by rw [hdeg]; exact lt_irrefl _)]
      linarith

/-- Witness for the amended C2 at a concrete all-identical score vector. -/
theorem claim2_amended_witness :
    ([DocId.num 0] : List DocId).length = ([5] : List ℚ).length ∧
    (∀ s ∈ ([5] : List ℚ), s = 5) ∧
    (bm25_score [DocId.num 0] [5] (DocId.num 0) = 0 ∧
      ((denseAcc []).maxV = (denseAcc []).minV → vec_score [] (DocId.num 0) = 0)) :=
  ⟨by decide, by decide,
    claim2_amended [DocId.num 0] [5] [] (DocId.num 0) 5 (by decide) (by decide)⟩

/-- C10.  Both normalizers, with every division routed through `checkedDiv`,
agree with the unchecked normalizers on every input: each division in the
normalization path is guarded by a strict `max > min` comparison, so its
denominator is nonzero for every combination of BM25 and dense score
vectors. -/
theorem claim10 (ids : List DocId) (scores : List ℚ) (sr : List Point) (pid : DocId) :
    bm25_scoreChecked ids scores pid = some (bm25_score ids scores pid) ∧
    vec_scoreChecked sr pid = some (vec_score sr pid) := by
  constructor
  · unfold bm25_scoreChecked bm25_score
    cases id_to_index ids pid with
    | none => rfl
    | some idx =>
      dsimp only
      by_cases hgt : max_bm25 scores > min_bm25 scores
      · rw [if_pos hgt, if_pos hgt]
        unfold checkedDiv
        rw [if_neg (sub_ne_zero_of_ne (ne_of_gt hgt))]
      · rw [if_neg hgt, if_neg hgt]
  · unfold vec_scoreChecked vec_score
    cases vector_scores sr pid with
    | none => rfl
    | some s =>
      dsimp only
      by_cases hgt : (denseAcc sr).maxV > (denseAcc sr).minV
      · rw [if_pos hgt, if_pos hgt]
        unfold checkedDiv
        rw [if_neg (sub_ne_zero_of_ne (ne_of_gt hgt))]
      · rw [if_neg hgt, if_neg hgt]

/-- C3, counterexample.  The claim says identical inputs always yield an
identical ordered result list, including tie order.  The candidate set is a
Python `set` union whose enumeration order is unspecified (for string ids it
varies across processes under hash randomization), and the final sort is
stable, so tied candidates retain enumeration order: in `env3` both documents
score 0 and the two legitimate enumerations of the same candidate union yield
different result lists. -/
theorem claim3_counterexample :
    [DocId.num 0, DocId.num 1].Perm (candidate_ids env3 []) ∧
    [DocId.num 1, DocId.num 0].Perm (candidate_ids env3 []) ∧
    hybridSearchOrdered env3 [DocId.num 0, DocId.num 1] 5 0 ≠
      hybridSearchOrdered env3 [DocId.num 1, DocId.num 0] 5 0 := by
  have e0 : scoreCandidate env3 [] 0 (DocId.num 0) = ⟨DocId.num 0, 0, []⟩ := by
    rw [scoreCandidate_score_zero env3 [] 0 (DocId.num 0) (by decide) (by decide)]
    decide
  have e1 : scoreCandidate env3 [] 0 (DocId.num 1) = ⟨DocId.num 1, 0, []⟩ := by
    rw [scoreCandidate_score_zero env3 [] 0 (DocId.num 1) (by decide) (by decide)]
    decide
  refine ⟨by decide, by decide, ?_⟩
  rw [hybridSearchOrdered_ok env3 [] _ 5 0 rfl, hybridSearchOrdered_ok env3 [] _ 5 0 rfl]
  rw [List.map_cons, List.map_cons, List.map_cons, List.map_cons, List.map_nil, e0, e1]
  decide

/-- C3, amended.  `hybrid_search` is deterministic given the enumeration
order of the candidate union: the output is exactly the stable
descending-by-score sort of the candidates in enumeration order, truncated to
`top_k`; the sorted list is sorted (pairwise `≥` on scores) and candidates
with equal combined scores retain their enumeration order (the filter at any
fixed score value is unchanged by the sort).  The enumeration order itself is
what Python's set union leaves unspecified across runs. -/
theorem claim3_amended (env : QueryEnv) (sr : List Point) (order : List DocId) (tk : Int)
    (alpha s : ℚ) (h : env.queryPoints = .ok sr) :
    hybridSearchOrdered env order tk alpha =
      .ok (pySlice (sortDesc (order.map (scoreCandidate env sr alpha))) tk) ∧
    List.Pairwise (fun a b => b.score ≤ a.score)
      (sortDesc (order.map (scoreCandidate env sr alpha))) ∧
    (sortDesc (order.map (scoreCandidate env sr alpha))).filter
        (fun r => decide (r.score = s)) =
      (order.map (scoreCandidate env sr alpha)).filter (fun r => decide (r.score = s)) :=
  ⟨hybridSearchOrdered_ok env sr order tk alpha h, sortDesc_pairwise _, sortDesc_filter s _⟩

/-- Witness for the amended C3 at a concrete environment and enumeration. -/
theorem claim3_amended_witness :
    env3.queryPoints = .ok [] ∧
    (hybridSearchOrdered env3 [] 5 0 =
        .ok (pySlice (sortDesc (([] : List DocId).map (scoreCandidate env3 [] 0))) 5) ∧
      List.Pairwise (fun a b => b.score ≤ a.score)
        (sortDesc (([] : List DocId).map (scoreCandidate env3 [] 0))) ∧
      (sortDesc (([] : List DocId).map (scoreCandidate env3 [] 0))).filter
          (fun r => decide (r.score = 0)) =
        (([] : List DocId).map (scoreCandidate env3 [] 0)).filter
          (fun r => decide (r.score = 0))) :=
  ⟨rfl, claim3_amended env3 [] [] 5 0 0 rfl⟩

/-- C4.  With `alpha` in [0,1] and a corpus whose id list and BM25 score
vector agree in length, every normalized lexical sub-score and every
normalized dense sub-score lies in [0,1], and every combined score in the
returned results lies in [0,1]. -/
theorem claim4 (env : QueryEnv) (sr : List Point) (tk : Int) (alpha : ℚ) (pid : DocId)
    (res : List SearchResult) (hlen : env.ids.length = env.bm25Scores.length)
    (hok : env.queryPoints = .ok sr) (h0 : 0 ≤ alpha) (h1 : alpha ≤ 1)
    (hres : hybrid_search env tk alpha = .ok res) :
    (0 ≤ bm25_score env.ids env.bm25Scores pid ∧ bm25_score env.ids env.bm25Scores pid ≤ 1) ∧
    (0 ≤ vec_score sr pid ∧ vec_score sr pid ≤ 1) ∧
    (∀ r ∈ res, 0 ≤ r.score ∧ r.score ≤ 1) := by
  refine ⟨bm25_score_bounds _ _ _ hlen, vec_score_bounds _ _, ?_⟩
  intro r hr
  rcases mem_hybrid_results env sr tk alpha res r hok hres hr with ⟨q, _, hrq⟩
  rcases bm25_score_bounds env.ids env.bm25Scores q hlen with ⟨hb0, hb1⟩
  rcases vec_score_bounds sr q with ⟨hv0, hv1⟩
  subst hrq
  unfold scoreCandidate
  dsimp only
  have hba : alpha * bm25_score env.ids env.bm25Scores q ≤ alpha :=
    mul_le_of_le_one_right h0 hb1
  have hva : (1 - alpha) * vec_score sr q ≤ 1 - alpha :=
    mul_le_of_le_one_right (by linarith) hv1
  constructor
  · have hbn : 0 ≤ alpha * bm25_score env.ids env.bm25Scores q := mul_nonneg h0 hb0
    have hvn : 0 ≤ (1 - alpha) * vec_score sr q := mul_nonneg (by linarith) hv0
    linarith
  · linarith

/-- Witness for C4 at a concrete degenerate environment. -/
theorem claim4_witness :
    envW4.ids.length = envW4.bm25Scores.length ∧ (0 : ℚ) ≤ 0 ∧ (0 : ℚ) ≤ 1 ∧
    ((0 ≤ bm25_score envW4.ids envW4.bm25Scores (DocId.num 0) ∧
        bm25_score envW4.ids envW4.bm25Scores (DocId.num 0) ≤ 1) ∧
      (0 ≤ vec_score [] (DocId.num 0) ∧ vec_score [] (DocId.num 0) ≤ 1) ∧
      (∀ r ∈ ([] : List SearchResult), 0 ≤ r.score ∧ r.score ≤ 1)) :=
  ⟨by decide, by decide, by decide,
    claim4 envW4 [] 0 0 (DocId.num 0) [] (by decide) rfl (by decide) (by decide) (by decide)⟩

/-- C5, counterexample.  The claim says a dense-backend error at query time
is recovered by lexical-only fallback and the query does not fail.  The
source wraps `client.query_points` in no `try` block, so the error
propagates: in `env5` the query fails and returns no lexical top-k at all. -/
theorem claim5_counterexample :
    (hybrid_search env5 5 0).isOk = false ∧
    hybrid_search env5 5 0 ≠ .ok (lexicalTopK env5 5) := by decide

/-- C5, amended.  A dense-backend error at query time propagates out of
`hybrid_search` unchanged: there is no lexical-only fallback and no warning,
and the query as a whole fails. -/
theorem claim5_amended (env : QueryEnv) (tk : Int) (alpha : ℚ) (e : DenseErr)
    (h : env.queryPoints = .error e) : hybrid_search env tk alpha = .error e := by
  unfold hybrid_search
  rw [h]

/-- Witness for the amended C5 at a concrete failing backend. -/
theorem claim5_amended_witness :
    env5.queryPoints = .error .unavailable ∧ hybrid_search env5 7 1 = .error .unavailable :=
  ⟨rfl, claim5_amended env5 7 1 .unavailable rfl⟩

/-- C6, counterexample.  The claim says `top_k <= 0` or `alpha` outside
[0,1] is rejected with an error.  Lines 48–56 perform no validation: a call
with `top_k = 0` and `alpha = 3` proceeds and returns an empty list, and one
with `top_k = -1` also proceeds normally (Python slicing drops the last
element). -/
theorem claim6_counterexample :
    hybrid_search env6 0 3 = .ok [] ∧ (hybrid_search env6 (-1) 3).isOk = true := by decide

/-- C6, amended.  `hybrid_search` performs no validation of `top_k` or
`alpha`: every call with a live backend succeeds, whatever the parameters;
`top_k` is applied through Python slice semantics (`top_k = 0` yields the
empty list, a negative `top_k` drops trailing elements), and `alpha` is used
as-is in the weighted sum, never clamped. -/
theorem claim6_amended (env : QueryEnv) (sr : List Point) (tk : Int) (alpha : ℚ)
    (h : env.queryPoints = .ok sr) :
    (hybrid_search env tk alpha).isOk = true ∧ hybrid_search env 0 alpha = .ok [] := by
  constructor
  · rw [hybrid_search_ok env sr tk alpha h]
    rfl
  · rw [hybrid_search_ok env sr 0 alpha h, pySlice_zero]

/-- Witness for the amended C6 at out-of-contract parameters. -/
theorem claim6_amended_witness :
    env6.queryPoints = .ok [] ∧
    ((hybrid_search env6 (-3) 7).isOk = true ∧ hybrid_search env6 0 7 = .ok []) :=
  ⟨rfl, claim6_amended env6 [] (-3) 7 rfl⟩

/-- C9, counterexample.  The claim concludes that each query is a pure
function of (query text, corpus/index snapshot, alpha, top_k).  With the
snapshot, alpha and top_k all fixed, two legitimate enumeration orders of the
candidate-set union produce different ordered result lists when combined
scores tie, so the output also depends on the set-iteration order, which is
not part of those four inputs. -/
theorem claim9_counterexample :
    [DocId.num 5, DocId.num 7].Perm (candidate_ids env9 []) ∧
    [DocId.num 7, DocId.num 5].Perm (candidate_ids env9 []) ∧
    hybridSearchOrdered env9 [DocId.num 5, DocId.num 7] 3 0 ≠
      hybridSearchOrdered env9 [DocId.num 7, DocId.num 5] 3 0 := by
  have e0 : scoreCandidate env9 [] 0 (DocId.num 5) = ⟨DocId.num 5, 0, []⟩ := by
    rw [scoreCandidate_score_zero env9 [] 0 (DocId.num 5) (by decide) (by decide)]
    decide
  have e1 : scoreCandidate env9 [] 0 (DocId.num 7) = ⟨DocId.num 7, 0, []⟩ := by
    rw [scoreCandidate_score_zero env9 [] 0 (DocId.num 7) (by decide) (by decide)]
    decide
  refine ⟨by decide, by decide, ?_⟩
  rw [hybridSearchOrdered_ok env9 [] _ 3 0 rfl, hybridSearchOrdered_ok env9 [] _ 3 0 rfl]
  rw [List.map_cons, List.map_cons, List.map_cons, List.map_cons, List.map_nil, e0, e1]
  decide

/-- C9, amended.  A query writes nothing: threading the shared module state
(`docs`, `ids`, the BM25 index, from which `id_to_index` is derived) through
an execution returns it unchanged, and the result is a pure function of the
read-only snapshot, the two client call results, `alpha`, `top_k` — plus the
candidate-union enumeration order, which fixes the relative order of tied
candidates. -/
theorem claim9_amended (st : ModuleState) (clientQuery : Except DenseErr (List Point))
    (clientRetrieve : DocId → List Point) (query : String) (top_k : Int) (alpha : ℚ) :
    (hybridSearchRun st clientQuery clientRetrieve query top_k alpha).2 = st ∧
    (hybridSearchRun st clientQuery clientRetrieve query top_k alpha).1 =
      hybrid_search
        { ids := st.ids
          bm25Scores := st.bm25GetScores (simple_tokenize query)
          queryPoints := clientQuery
          retrieve := clientRetrieve }
        top_k alpha :=
  ⟨rfl, rfl⟩

/-- C7, counterexample.  The claim says a malformed record (missing id or
text) is skipped and logged and the build continues, aborting only when zero
valid records remain.  `bRec` has no id, so `int(None)` raises a `TypeError`
that the surrounding `except ValueError` does not catch: with the valid
`gRec` still present, both the query-side corpus load and the
`build_vector_db` loop abort. -/
theorem claim7_counterexample :
    (recordId gRec).isOk = true ∧
    loadCorpus [gRec, bRec] = .error .typeError ∧
    buildPoints [gRec, bRec] = .error .typeError := by decide

/-- C7, amended.  The query-side corpus load never skips a record: whenever
it succeeds, it keeps one (possibly empty) text per input record, a record
missing text included; a record whose id fields are both missing or falsy
aborts both builds with an uncaught `TypeError`, even when valid records
remain; and the `build_vector_db` loop silently skips exactly the records
whose text is `None`, with no logging and no zero-valid-records check. -/
theorem claim7_amended :
    (∀ rs ds dids, loadCorpus rs = .ok (ds, dids) → ds.length = rs.length) ∧
    (∀ (rs : List RawRecord) (r : RawRecord), r ∈ rs → (recordId r).isOk = false →
      (loadCorpus rs).isOk = false ∧ (buildPoints rs).isOk = false) ∧
    (∀ rs ps, buildPoints rs = .ok ps →
      ps.length = (rs.filter (fun r => (recordTextBV r).isSome)).length) := by
  refine ⟨?_, ?_, ?_⟩
  · intro rs
    induction rs with
    | nil =>
      intro ds dids h
      rw [loadCorpus] at h
      injection h with h
      injection h with h1 h2
      subst h1
      rfl
    | cons r rs ih =>
      intro ds dids h
      rw [loadCorpus] at h
      cases hrid : recordId r with
      | error e => rw [hrid] at h; cases h
      | ok did =>
        rw [hrid] at h
        dsimp only at h
        cases hrec : loadCorpus rs with
        | error e => rw [hrec] at h; cases h
        | ok pair =>
          obtain ⟨ds', dids'⟩ := pair
          rw [hrec] at h
          dsimp only at h
          injection h with h
          injection h with h1 h2
          subst h1
          rw [List.length_cons, List.length_cons, ih ds' dids' hrec]
  · intro rs
    induction rs with
    | nil => intro r hr; exact absurd hr (List.not_mem_nil r)
    | cons q qs ih =>
      intro r hr hbad
      rcases List.mem_cons.mp hr with h1 | h2
      · subst h1
        cases hrid : recordId r with
        | ok did => rw [hrid] at hbad; simp [Except.isOk, Except.toBool] at hbad
        | error e =>
          constructor
          · rw [loadCorpus, hrid]; rfl
          · rw [buildPoints, hrid]; rfl
      · rcases ih r h2 hbad with ⟨hl, hb⟩
        constructor
        · rw [loadCorpus]
          cases hrid : recordId q with
          | error e => rfl
          | ok did =>
            dsimp only
            cases hrec : loadCorpus qs with
            | error e => rfl
            | ok pair => rw [hrec] at hl; simp [Except.isOk, Except.toBool] at hl
        · rw [buildPoints]
          cases hrid : recordId q with
          | error e => rfl
          | ok did =>
            dsimp only
            cases htxt : recordTextBV q with
            | none => exact hb
            | some t =>
              dsimp only
              cases hrec : buildPoints qs with
              | error e => rfl
              | ok ps => rw [hrec] at hb; simp [Except.isOk, Except.toBool] at hb
  · intro rs
    induction rs with
    | nil =>
      intro ps h
      rw [buildPoints] at h
      injection h with h
      rw [← h]
      rfl
    | cons r rs ih =>
      intro ps h
      rw [buildPoints] at h
      cases hrid : recordId r with
      | error e => rw [hrid] at h; cases h
      | ok did =>
        rw [hrid] at h
        dsimp only at h
        cases htxt : recordTextBV r with
        | none =>
          rw [htxt] at h
          dsimp only at h
          have hfil : (r :: rs).filter (fun q => (recordTextBV q).isSome) =
              rs.filter (fun q => (recordTextBV q).isSome) := by
            simp [List.filter_cons, htxt]
          rw [hfil]
          exact ih ps h
        | some t =>
          rw [htxt] at h
          dsimp only at h
          cases hrec : buildPoints rs with
          | error e => rw [hrec] at h; cases h
          | ok ps' =>
            rw [hrec] at h
            dsimp only at h
            injection h with h
            have hfil : (r :: rs).filter (fun q => (recordTextBV q).isSome) =
                r :: rs.filter (fun q => (recordTextBV q).isSome) := by
              simp [List.filter_cons, htxt]
            rw [← h, hfil, List.length_cons, List.length_cons, ih ps' hrec]

/-- Witness for the amended C7 at concrete records. -/
theorem claim7_amended_witness :
    (["brake fails"] : List String).length = [gRec].length ∧
    ((loadCorpus [gRec, bRec]).isOk = false ∧ (buildPoints [gRec, bRec]).isOk = false) ∧
    ([] : List (DocId × String)).length =
      ([tRec].filter (fun r => (recordTextBV r).isSome)).length :=
  ⟨claim7_amended.1 [gRec] ["brake fails"] [DocId.num 7] (by decide),
    claim7_amended.2.1 [gRec, bRec] bRec (by decide) (by decide),
    claim7_amended.2.2 [tRec] [] (by decide)⟩

/-- C8.  Every result entry's metadata equals the spec's resolution policy:
the payload attached to this id in the dense retrieval result when that
payload is present, else the payload of a point lookup by id, else the empty
mapping — and a candidate with no resolvable payload is still returned, never
an error. -/
theorem claim8 (env : QueryEnv) (sr : List Point) (tk : Int) (alpha : ℚ)
    (res : List SearchResult) (r : SearchResult) (hok : env.queryPoints = .ok sr)
    (hres : hybrid_search env tk alpha = .ok res) (hr : r ∈ res) :
    r.meta = specResolveMeta sr env.retrieve r.id := by
  rcases mem_hybrid_results env sr tk alpha res r hok hres hr with ⟨q, _, hrq⟩
  subst hrq
  unfold scoreCandidate
  dsimp only
  exact resolveMeta_eq_spec sr env.retrieve q

/-- Witness for C8 at a concrete dense payload. -/
theorem claim8_witness :
    envW8.queryPoints = .ok srW8 ∧
    (⟨DocId.num 0, 0, [("k", "v")]⟩ : SearchResult).meta =
      specResolveMeta srW8 envW8.retrieve (⟨DocId.num 0, 0, [("k", "v")]⟩ : SearchResult).id := by
  refine ⟨rfl, ?_⟩
  have e : scoreCandidate envW8 srW8 0 (DocId.num 0) = ⟨DocId.num 0, 0, [("k", "v")]⟩ := by
    rw [scoreCandidate_score_zero envW8 srW8 0 (DocId.num 0) (by decide) (by decide)]
    decide
  have hres : hybrid_search envW8 5 0 = .ok [⟨DocId.num 0, 0, [("k", "v")]⟩] := by
    rw [hybrid_search_ok envW8 srW8 5 0 rfl]
    have hc : candidate_ids envW8 srW8 = [DocId.num 0] := by decide
    rw [hc, List.map_cons, List.map_nil, e]
    decide
  exact claim8 envW8 srW8 5 0 [⟨DocId.num 0, 0, [("k", "v")]⟩]
    ⟨DocId.num 0, 0, [("k", "v")]⟩ rfl hres (by decide)

end LeRAG
